import Mathlib

/-!
Shallow embedding of `src/crypto/rsa/rsa_impl.c` (the RSA core of the
`ring` fork): the key validator `GFp_rsa_check_modulus_and_exponent`,
the public transform `GFp_rsa_public_decrypt`, and the private (CRT)
transform `GFp_rsa_private_transform`.

Big integers (`BIGNUM`) are modelled as `Nat`; the arbitrary-precision
engine (`GFp_BN_*`) is an external collaborator of this file's C source,
so its operations are modelled by their mathematical contracts as stated
in the specification's §6 interface description and in the C source's own
comments.  Byte buffers are `List Nat` (big-endian, each entry < 256).
Stateful buffer writes are modelled by explicit state passing: each
transform returns the error outcome together with the buffer contents
after the call.
-/

namespace RingRsa

/-- Error reasons pushed via `OPENSSL_PUT_ERROR` in `rsa_impl.c`. -/
inductive Err where
  | RSA_R_KEY_SIZE_TOO_SMALL
  | RSA_R_MODULUS_TOO_LARGE
  | RSA_R_BAD_E_VALUE
  | RSA_R_OUTPUT_BUFFER_TOO_SMALL
  | RSA_R_DATA_LEN_NOT_EQUAL_TO_MOD_LEN
  | RSA_R_DATA_TOO_LARGE_FOR_MODULUS
  | ERR_R_INTERNAL_ERROR
  deriving DecidableEq, Repr

/-- Fuel-driven bit-length computation: `numBitsAux fuel n` is the number of
binary digits of `n`, provided `n ≤ fuel`. -/
def numBitsAux : Nat → Nat → Nat
  | 0, _ => 0
  | fuel + 1, n => if n = 0 then 0 else numBitsAux fuel (n / 2) + 1

/-- `GFp_BN_num_bits`: the bit length of a big integer (0 for 0). -/
def GFp_BN_num_bits (n : Nat) : Nat := numBitsAux n n

/-- `GFp_BN_num_bytes`: the byte length of a big integer,
`ceil(bitlen(n)/8)`. -/
def GFp_BN_num_bytes (n : Nat) : Nat := (GFp_BN_num_bits n + 7) / 8

/-- `GFp_BN_bin2bn`: interpret a big-endian byte string as a big integer. -/
def beToNat (l : List Nat) : Nat := l.foldl (fun a b => a * 256 + b) 0

/-- Big-endian encoding of `v` into exactly `len` bytes (value truncated to
`len` bytes; the failure case is handled by `GFp_BN_bn2bin_padded`). -/
def natToBe : Nat → Nat → List Nat
  | 0, _ => []
  | len + 1, v => natToBe len (v / 256) ++ [v % 256]

/-- `GFp_BN_bn2bin_padded`: serialize `v` big-endian, left-zero-padded to
exactly `len` bytes; fails (returns `none`) when the value does not fit. -/
def GFp_BN_bn2bin_padded (len v : Nat) : Option (List Nat) :=
  if v < 256 ^ len then some (natToBe len v) else none

/-- Fuel-driven binary modular exponentiation; `fuel` bounds the number of
halvings of the exponent. -/
def powModAux : Nat → Nat → Nat → Nat → Nat
  | 0, _, _, m => 1 % m
  | fuel + 1, b, e, m =>
    if e = 0 then 1 % m
    else
      let r := powModAux fuel (b * b % m) (e / 2) m
      if e % 2 = 1 then r * b % m else r

/-- Modular exponentiation `b ^ e mod m`, the contract of the engine's
`GFp_BN_mod_exp_mont_consttime` / `GFp_BN_mod_exp_mont_vartime`. -/
def powMod (b e m : Nat) : Nat := powModAux e b e m

/-- `GFp_BN_mod_sub_quick a b m`: subtraction with a single conditional add
of the modulus, valid when `a < m` and `b ≤ m`. -/
def GFp_BN_mod_sub_quick (a b m : Nat) : Nat :=
  if b ≤ a then a - b else a + m - b

/-- The `RSA` private-key struct of `rsa_impl.c`, with each Montgomery
context replaced by its modulus (`mont_n ↦ n`, `mont_p ↦ p`, `mont_q ↦ q`,
`mont_qq ↦ q*q`), `iqmp_mont` by the plain value `q⁻¹ mod p` and
`qmn_mont` by the plain value `q` (the Montgomery factors cancel in the
multiplications where they are used, per the C source's comments). -/
structure RSA where
  n : Nat
  e : Nat
  p : Nat
  q : Nat
  dmp1 : Nat
  dmq1 : Nat
  iqmp : Nat
  deriving DecidableEq, Repr

/-- `GFp_RSA_size`: the modulus byte length. -/
def GFp_RSA_size (rsa : RSA) : Nat := GFp_BN_num_bytes rsa.n

/-- `GFp_rsa_check_modulus_and_exponent` (rsa_impl.c:75-127): `none` models
returning 1 (success), `some err` models returning 0 after pushing `err`. -/
def GFp_rsa_check_modulus_and_exponent (n e min_bits max_bits : Nat) :
    Option Err :=
  let rsa_bits := GFp_BN_num_bits n
  if rsa_bits < min_bits then some .RSA_R_KEY_SIZE_TOO_SMALL
  else if 16 * 1024 < rsa_bits ∨ max_bits < rsa_bits then
    some .RSA_R_MODULUS_TOO_LARGE
  else
    let e_bits := GFp_BN_num_bits e
    if e_bits < 2 then some .RSA_R_BAD_E_VALUE
    else if 33 < e_bits then some .RSA_R_BAD_E_VALUE
    else if e % 2 = 0 then some .RSA_R_BAD_E_VALUE
    else if rsa_bits ≤ 33 then some .RSA_R_KEY_SIZE_TOO_SMALL
    else none

/-- `GFp_rsa_public_decrypt` (rsa_impl.c:143-208).  `out` is the caller's
output buffer; the returned pair is (error outcome, buffer contents after
the call), modelling the in-place write explicitly. -/
def GFp_rsa_public_decrypt (out n_bytes e_bytes in_bytes : List Nat)
    (min_bits max_bits : Nat) : Option Err × List Nat :=
  let n := beToNat n_bytes
  let e := beToNat e_bytes
  let rsa_size := GFp_BN_num_bytes n
  if out.length ≠ rsa_size then (some .RSA_R_OUTPUT_BUFFER_TOO_SMALL, out)
  else if in_bytes.length ≠ rsa_size then
    (some .RSA_R_DATA_LEN_NOT_EQUAL_TO_MOD_LEN, out)
  else match GFp_rsa_check_modulus_and_exponent n e min_bits max_bits with
    | some err => (some err, out)
    | none =>
      let f := beToNat in_bytes
      if n ≤ f then (some .RSA_R_DATA_TOO_LARGE_FOR_MODULUS, out)
      else match GFp_BN_bn2bin_padded out.length (powMod f e n) with
        | none => (some .ERR_R_INTERNAL_ERROR, out)
        | some o => (none, o)

/-- Modelled from the spec: the external blinding context holds "a random
blinding factor and its modular inverse"; `blind` is the random factor and
`blindInv` an inverse of it modulo `n` (the consistency of the pair,
`blind * blindInv ≡ 1 (mod n)`, is the external component's contract and
appears as a hypothesis where it is needed). -/
structure BN_BLINDING where
  blind : Nat
  blindInv : Nat
  deriving DecidableEq, Repr

/-- Modelled from the spec: `GFp_BN_BLINDING_convert` multiplies the input
by the random factor raised to the public exponent, `blind ^ e mod n`, so
that the factor's effect can be removed after the `d`-th-power operation. -/
def GFp_BN_BLINDING_convert (base : Nat) (blinding : BN_BLINDING)
    (rsa : RSA) : Nat :=
  base * powMod blinding.blind rsa.e rsa.n % rsa.n

/-- Modelled from the spec: `GFp_BN_BLINDING_invert` removes the blinding
factor from the result by multiplying with the held inverse of the random
factor modulo `n`. -/
def GFp_BN_BLINDING_invert (r : Nat) (blinding : BN_BLINDING)
    (rsa : RSA) : Nat :=
  r * blinding.blindInv % rsa.n

/-- `mp := base^dmp1 mod p` (rsa_impl.c:252-260): the base is reduced
mod `p` in a single step, then raised with the constant-time
exponentiation. -/
def rsa_mp (rsa : RSA) (base : Nat) : Nat :=
  powMod (base % rsa.p) rsa.dmp1 rsa.p

/-- `mq := base^dmq1 mod q` (rsa_impl.c:262-271): the base is first
reduced mod `q²` (the `mont_qq` context) and then mod `q`. -/
def rsa_mq (rsa : RSA) (base : Nat) : Nat :=
  powMod (base % (rsa.q * rsa.q) % rsa.q) rsa.dmq1 rsa.q

/-- Garner recombination (rsa_impl.c:273-291):
`tmp := mp - mq (mod p)`; `tmp := tmp * iqmp mod p`;
`tmp := tmp * q mod n`; `r := tmp + mq`. -/
def garner (rsa : RSA) (mp mq : Nat) : Nat :=
  GFp_BN_mod_sub_quick mp mq rsa.p * rsa.iqmp % rsa.p * rsa.q % rsa.n + mq

/-- The recombined CRT result `r` computed from the blinded base. -/
def crt_result (rsa : RSA) (base : Nat) : Nat :=
  garner rsa (rsa_mp rsa base) (rsa_mq rsa base)

/-- `GFp_rsa_private_transform` (rsa_impl.c:219-332).  `inout` is the
caller's in/out buffer and `blinding` the blinding context; the returned
pair is (error outcome, buffer contents after the call). -/
def GFp_rsa_private_transform (rsa : RSA) (inout : List Nat)
    (blinding : BN_BLINDING) : Option Err × List Nat :=
  let base := beToNat inout
  if rsa.n ≤ base then (some .RSA_R_DATA_TOO_LARGE_FOR_MODULUS, inout)
  else
    let blinded := GFp_BN_BLINDING_convert base blinding rsa
    let r := crt_result rsa blinded
    let vrfy := powMod r rsa.e rsa.n
    if vrfy ≠ blinded then (some .ERR_R_INTERNAL_ERROR, inout)
    else match GFp_BN_bn2bin_padded inout.length
        (GFp_BN_BLINDING_invert r blinding rsa) with
      | none => (some .ERR_R_INTERNAL_ERROR, inout)
      | some o => (none, o)

/-- Modelled from the spec: the size contract of the private transform —
"`inout` is `len` bytes long and `len` is always equal to `RSA_size(rsa)`"
— is enforced by the transform's caller (outside this C file); for buffer
lengths different from the modulus byte length the call fails with the
input-length flavour of `BufferSizeMismatch` before the core runs. -/
def rsa_private_transform_checked (rsa : RSA) (inout : List Nat)
    (blinding : BN_BLINDING) : Option Err × List Nat :=
  if inout.length ≠ GFp_RSA_size rsa then
    (some .RSA_R_DATA_LEN_NOT_EQUAL_TO_MOD_LEN, inout)
  else GFp_rsa_private_transform rsa inout blinding

/-! ### Basic facts about the modelled engine primitives -/

theorem numBitsAux_le_iff : ∀ (fuel n k : Nat), n ≤ fuel →
    (numBitsAux fuel n ≤ k ↔ n < 2 ^ k) := by
  intro fuel
  induction fuel with
  | zero =>
    intro n k h
    interval_cases n
    simp [numBitsAux, Nat.pos_pow_of_pos, Nat.pow_pos]
  | succ fuel ih =>
    intro n k h
    by_cases hn : n = 0
    · subst hn
      simp [numBitsAux, Nat.pow_pos]
    · rw [show numBitsAux (fuel + 1) n = numBitsAux fuel (n / 2) + 1 by
        simp [numBitsAux, hn]]
      have hdiv : n / 2 ≤ fuel := by omega
      cases k with
      | zero =>
        constructor
        · omega
        · intro hk
          omega
      | succ k =>
        rw [Nat.succ_le_succ_iff, ih (n / 2) k hdiv, pow_succ]
        rw [Nat.div_lt_iff_lt_mul (by norm_num)]

theorem num_bits_le_iff (n k : Nat) : GFp_BN_num_bits n ≤ k ↔ n < 2 ^ k :=
  numBitsAux_le_iff n n k le_rfl

theorem lt_num_bits_iff (n k : Nat) : k < GFp_BN_num_bits n ↔ 2 ^ k ≤ n := by
  rw [← Nat.not_le, num_bits_le_iff, Nat.not_lt]

theorem lt_two_pow_num_bits (n : Nat) : n < 2 ^ GFp_BN_num_bits n :=
  (num_bits_le_iff n _).mp le_rfl

theorem lt_256_pow_num_bytes (n : Nat) : n < 256 ^ GFp_BN_num_bytes n := by
  have h1 := lt_two_pow_num_bits n
  have h2 : GFp_BN_num_bits n ≤ 8 * GFp_BN_num_bytes n := by
    unfold GFp_BN_num_bytes
    omega
  calc n < 2 ^ GFp_BN_num_bits n := h1
    _ ≤ 2 ^ (8 * GFp_BN_num_bytes n) := Nat.pow_le_pow_right (by norm_num) h2
    _ = 256 ^ GFp_BN_num_bytes n := by rw [pow_mul]; norm_num

theorem powModAux_eq : ∀ (fuel b e m : Nat), e ≤ fuel → 0 < m →
    powModAux fuel b e m = b ^ e % m := by
  intro fuel
  induction fuel with
  | zero =>
    intro b e m h hm
    interval_cases e
    simp [powModAux]
  | succ fuel ih =>
    intro b e m h hm
    by_cases he : e = 0
    · subst he
      simp [powModAux]
    · rw [show powModAux (fuel + 1) b e m =
          (if e % 2 = 1 then powModAux fuel (b * b % m) (e / 2) m * b % m
           else powModAux fuel (b * b % m) (e / 2) m) by
        simp [powModAux, he]]
      rw [ih (b * b % m) (e / 2) m (by omega) hm]
      have hsq : (b * b % m) ^ (e / 2) % m = b ^ (2 * (e / 2)) % m := by
        rw [← Nat.pow_mod, mul_pow, ← pow_add, two_mul]
      by_cases hodd : e % 2 = 1
      · rw [if_pos hodd, hsq]
        have hexp : e = 2 * (e / 2) + 1 := by omega
        conv_rhs => rw [hexp]
        rw [pow_succ, Nat.mul_mod, Nat.mod_mod_of_dvd _ dvd_rfl, ← Nat.mul_mod]
      · rw [if_neg hodd, hsq]
        have hexp : e = 2 * (e / 2) := by omega
        rw [← hexp]

theorem powMod_eq (b e m : Nat) (hm : 0 < m) : powMod b e m = b ^ e % m :=
  powModAux_eq e b e m le_rfl hm

theorem beToNat_append (l : List Nat) (x : Nat) :
    beToNat (l ++ [x]) = beToNat l * 256 + x := by
  simp [beToNat, List.foldl_append]

theorem natToBe_length : ∀ (len v : Nat), (natToBe len v).length = len := by
  intro len
  induction len with
  | zero => intro v; simp [natToBe]
  | succ len ih => intro v; simp [natToBe, ih]

theorem beToNat_natToBe : ∀ (len v : Nat), v < 256 ^ len →
    beToNat (natToBe len v) = v := by
  intro len
  induction len with
  | zero =>
    intro v h
    interval_cases v
    simp [natToBe, beToNat]
  | succ len ih =>
    intro v h
    have hdiv : v / 256 < 256 ^ len := by
      rw [Nat.div_lt_iff_lt_mul (by norm_num)]
      rw [pow_succ] at h
      exact h
    rw [show natToBe (len + 1) v = natToBe len (v / 256) ++ [v % 256] from rfl]
    rw [beToNat_append, ih (v / 256) hdiv]
    omega

theorem natToBe_beToNat (l : List Nat) (h : ∀ b ∈ l, b < 256) :
    natToBe l.length (beToNat l) = l := by
  induction l using List.reverseRecOn with
  | nil => simp [natToBe, beToNat]
  | append_singleton l x ih =>
    have hx : x < 256 := h x (by simp)
    rw [beToNat_append]
    rw [show (l ++ [x]).length = l.length + 1 by simp]
    rw [show natToBe (l.length + 1) (beToNat l * 256 + x) =
      natToBe l.length ((beToNat l * 256 + x) / 256) ++
        [(beToNat l * 256 + x) % 256] from rfl]
    have h1 : (beToNat l * 256 + x) / 256 = beToNat l := by omega
    have h2 : (beToNat l * 256 + x) % 256 = x := by omega
    rw [h1, h2, ih (fun b hb => h b (by simp [hb]))]

theorem beToNat_lt (l : List Nat) (h : ∀ b ∈ l, b < 256) :
    beToNat l < 256 ^ l.length := by
  induction l using List.reverseRecOn with
  | nil => simp [beToNat]
  | append_singleton l x ih =>
    have hx : x < 256 := h x (by simp)
    have hl := ih (fun b hb => h b (by simp [hb]))
    rw [beToNat_append]
    rw [show (l ++ [x]).length = l.length + 1 by simp, pow_succ]
    omega

/-! ### Number-theoretic core: Fermat, RSA round-trip, Garner -/

theorem pow_congr_mod_prime {p : Nat} (hp : p.Prime) {k l : Nat}
    (hk : 0 < k) (hl : 0 < l) (hkl : k ≡ l [MOD p - 1]) (a : Nat) :
    a ^ k ≡ a ^ l [MOD p] := by
  haveI : Fact p.Prime := ⟨hp⟩
  rw [← ZMod.natCast_eq_natCast_iff]
  push_cast
  by_cases hx : (a : ZMod p) = 0
  · rw [hx, zero_pow hk.ne', zero_pow hl.ne']
  · have h1 : (a : ZMod p) ^ (p - 1) = 1 := ZMod.pow_card_sub_one_eq_one hx
    have key : ∀ m : Nat, (a : ZMod p) ^ m = (a : ZMod p) ^ (m % (p - 1)) := by
      intro m
      conv_lhs => rw [← Nat.mod_add_div m (p - 1)]
      rw [pow_add, pow_mul, h1, one_pow, mul_one]
    rw [key k, key l, show k % (p - 1) = l % (p - 1) from hkl]

theorem rsa_pow_round {p : Nat} (hp : p.Prime) {e d : Nat} (he : 0 < e)
    (hd : 0 < d) (hed : e * d ≡ 1 [MOD p - 1]) (a : Nat) :
    a ^ (d * e) ≡ a [MOD p] := by
  have h1 : d * e ≡ 1 [MOD p - 1] := by rwa [mul_comm] at hed
  have h2 := pow_congr_mod_prime hp (Nat.mul_pos hd he) one_pos h1 a
  simpa using h2

theorem modEq_mul_of_primes {p q a b : Nat} (hp : p.Prime) (hq : q.Prime)
    (hne : p ≠ q) (h1 : a ≡ b [MOD p]) (h2 : a ≡ b [MOD q]) :
    a ≡ b [MOD p * q] :=
  (Nat.modEq_and_modEq_iff_modEq_mul ((Nat.coprime_primes hp hq).mpr hne)).mp
    ⟨h1, h2⟩

theorem rsa_core {p q n e d : Nat} (hp : p.Prime) (hq : q.Prime) (hne : p ≠ q)
    (hn : n = p * q) (he : 0 < e) (hd : 0 < d)
    (hedp : e * d ≡ 1 [MOD p - 1]) (hedq : e * d ≡ 1 [MOD q - 1]) (a : Nat) :
    a ^ (d * e) ≡ a [MOD n] := by
  subst hn
  exact modEq_mul_of_primes hp hq hne (rsa_pow_round hp he hd hedp a)
    (rsa_pow_round hq he hd hedq a)

theorem mod_sub_quick_lt {mp mq p : Nat} (hmp : mp < p) :
    GFp_BN_mod_sub_quick mp mq p < p := by
  unfold GFp_BN_mod_sub_quick
  split <;> omega

theorem mod_sub_quick_cast {mp mq p : Nat} (hmq : mq ≤ p) :
    ((GFp_BN_mod_sub_quick mp mq p : Nat) : ZMod p) = (mp : ZMod p) - mq := by
  unfold GFp_BN_mod_sub_quick
  split
  · rename_i hle
    rw [Nat.cast_sub hle]
  · rw [Nat.cast_sub (by omega)]
    push_cast [ZMod.natCast_self]
    ring

theorem garner_correct (rsa : RSA) (hq0 : 0 < rsa.q) (hqp : rsa.q < rsa.p)
    (hn : rsa.n = rsa.p * rsa.q) (hco : Nat.Coprime rsa.p rsa.q)
    (hiq : rsa.iqmp * rsa.q ≡ 1 [MOD rsa.p]) {mp mq B : Nat}
    (hmp : mp < rsa.p) (hmq : mq < rsa.q)
    (hmpB : mp ≡ B [MOD rsa.p]) (hmqB : mq ≡ B [MOD rsa.q]) :
    garner rsa mp mq = B % rsa.n := by
  have hp0 : 0 < rsa.p := by omega
  set s := GFp_BN_mod_sub_quick mp mq rsa.p with hs
  set t1 := s * rsa.iqmp % rsa.p with ht1
  have ht1lt : t1 < rsa.p := Nat.mod_lt _ hp0
  have ht2 : t1 * rsa.q < rsa.n := by
    rw [hn]
    exact Nat.mul_lt_mul_of_lt_of_le ht1lt le_rfl hq0
  have ht3 : t1 * rsa.q % rsa.n = t1 * rsa.q := Nat.mod_eq_of_lt ht2
  have hgarner : garner rsa mp mq = t1 * rsa.q + mq := by
    unfold garner
    rw [← hs, ← ht1, ht3]
  rw [hgarner]
  have hrn : t1 * rsa.q + mq < rsa.n := by
    have h1 : (t1 + 1) * rsa.q ≤ rsa.p * rsa.q := Nat.mul_le_mul_right _ (by omega)
    rw [hn]
    have h2 : t1 * rsa.q + rsa.q ≤ rsa.p * rsa.q := by rw [← Nat.succ_mul]; exact h1
    omega
  have hrq : t1 * rsa.q + mq ≡ B [MOD rsa.q] := by
    refine Nat.ModEq.trans ?_ hmqB
    unfold Nat.ModEq
    rw [Nat.add_comm, Nat.add_mul_mod_self_right]
  have hrp : t1 * rsa.q + mq ≡ B [MOD rsa.p] := by
    rw [← ZMod.natCast_eq_natCast_iff] at hmpB hiq ⊢
    push_cast at hmpB hiq ⊢
    rw [ht1, ZMod.natCast_mod]
    push_cast
    rw [mod_sub_quick_cast (le_of_lt (lt_trans hmq hqp))]
    calc ((mp : ZMod rsa.p) - mq) * rsa.iqmp * rsa.q + mq
        = ((mp : ZMod rsa.p) - mq) * (rsa.iqmp * rsa.q) + mq := by ring
      _ = (mp : ZMod rsa.p) - mq + mq := by rw [hiq]; ring
      _ = mp := by ring
      _ = B := hmpB
  have hmod : t1 * rsa.q + mq ≡ B [MOD rsa.n] := by
    rw [hn]
    exact (Nat.modEq_and_modEq_iff_modEq_mul hco).mp ⟨hrp, hrq⟩
  calc t1 * rsa.q + mq = (t1 * rsa.q + mq) % rsa.n := (Nat.mod_eq_of_lt hrn).symm
    _ = B % rsa.n := hmod

theorem crt_result_eq (rsa : RSA) (d : Nat) (hp : rsa.p.Prime)
    (hq : rsa.q.Prime) (hqp : rsa.q < rsa.p) (hn : rsa.n = rsa.p * rsa.q)
    (hdmp1 : rsa.dmp1 = d % (rsa.p - 1)) (hdmq1 : rsa.dmq1 = d % (rsa.q - 1))
    (hd : 0 < d) (hdmp0 : 0 < rsa.dmp1) (hdmq0 : 0 < rsa.dmq1)
    (hiq : rsa.iqmp * rsa.q ≡ 1 [MOD rsa.p]) (b : Nat) :
    crt_result rsa b = b ^ d % rsa.n := by
  have hp0 : 0 < rsa.p := hp.pos
  have hq0 : 0 < rsa.q := hq.pos
  have hmp_eq : rsa_mp rsa b = b ^ rsa.dmp1 % rsa.p := by
    unfold rsa_mp
    rw [powMod_eq _ _ _ hp0, ← Nat.pow_mod]
  have hmq_eq : rsa_mq rsa b = b ^ rsa.dmq1 % rsa.q := by
    unfold rsa_mq
    rw [powMod_eq _ _ _ hq0,
      Nat.mod_mod_of_dvd _ (Dvd.intro_left rsa.q rfl), ← Nat.pow_mod]
  have hmpB : b ^ rsa.dmp1 % rsa.p ≡ b ^ d [MOD rsa.p] :=
    (Nat.mod_modEq _ _).trans
      (pow_congr_mod_prime hp hdmp0 hd
        (by rw [hdmp1]; exact Nat.mod_modEq d (rsa.p - 1)) b)
  have hmqB : b ^ rsa.dmq1 % rsa.q ≡ b ^ d [MOD rsa.q] :=
    (Nat.mod_modEq _ _).trans
      (pow_congr_mod_prime hq hdmq0 hd
        (by rw [hdmq1]; exact Nat.mod_modEq d (rsa.q - 1)) b)
  unfold crt_result
  rw [hmp_eq, hmq_eq]
  exact garner_correct rsa hq0 hqp hn
    ((Nat.coprime_primes hp hq).mpr (ne_of_gt hqp)) hiq
    (Nat.mod_lt _ hp0) (Nat.mod_lt _ hq0) hmpB hmqB

/-! ### Validator characterization and transform pipeline lemmas -/

theorem validator_none_iff (n e mn mx : Nat) :
    GFp_rsa_check_modulus_and_exponent n e mn mx = none ↔
      mn ≤ GFp_BN_num_bits n ∧ GFp_BN_num_bits n ≤ 16384 ∧
      GFp_BN_num_bits n ≤ mx ∧ 2 ≤ GFp_BN_num_bits e ∧
      GFp_BN_num_bits e ≤ 33 ∧ e % 2 = 1 ∧ 33 < GFp_BN_num_bits n := by
  simp only [GFp_rsa_check_modulus_and_exponent]
  by_cases h1 : GFp_BN_num_bits n < mn
  · rw [if_pos h1]
    exact iff_of_false (by simp) (by omega)
  rw [if_neg h1]
  by_cases h2 : 16 * 1024 < GFp_BN_num_bits n ∨ mx < GFp_BN_num_bits n
  · rw [if_pos h2]
    exact iff_of_false (by simp) (by omega)
  rw [if_neg h2]
  by_cases h3 : GFp_BN_num_bits e < 2
  · rw [if_pos h3]
    exact iff_of_false (by simp) (by omega)
  rw [if_neg h3]
  by_cases h4 : 33 < GFp_BN_num_bits e
  · rw [if_pos h4]
    exact iff_of_false (by simp) (by omega)
  rw [if_neg h4]
  by_cases h5 : e % 2 = 0
  · rw [if_pos h5]
    exact iff_of_false (by simp) (by omega)
  rw [if_neg h5]
  by_cases h6 : GFp_BN_num_bits n ≤ 33
  · rw [if_pos h6]
    exact iff_of_false (by simp) (by omega)
  rw [if_neg h6]
  exact iff_of_true rfl (by omega)

theorem validator_none_n_pos {n e mn mx : Nat}
    (h : GFp_rsa_check_modulus_and_exponent n e mn mx = none) : 0 < n := by
  have h1 := ((validator_none_iff n e mn mx).mp h).2.2.2.2.2.2
  have h2 := (lt_num_bits_iff n 33).mp h1
  have h3 : 0 < 2 ^ 33 := Nat.pos_pow_of_pos 33 (by norm_num)
  omega

theorem validator_none_e_pos {n e mn mx : Nat}
    (h : GFp_rsa_check_modulus_and_exponent n e mn mx = none) : 0 < e := by
  have h1 := ((validator_none_iff n e mn mx).mp h).2.2.2.1
  have h2 := (lt_num_bits_iff e 1).mp (by omega)
  omega

theorem validator_none_e_lt_n {n e mn mx : Nat}
    (h : GFp_rsa_check_modulus_and_exponent n e mn mx = none) : e < n := by
  have hiff := (validator_none_iff n e mn mx).mp h
  have h1 : e < 2 ^ 33 := (num_bits_le_iff e 33).mp hiff.2.2.2.2.1
  have h2 : 2 ^ 33 ≤ n := (lt_num_bits_iff n 33).mp hiff.2.2.2.2.2.2
  omega

/-- The private transform, on a valid key, a consistent blinding pair and a
message below the modulus, succeeds and writes the `d`-th power of the
message modulo `n`, padded to the buffer length. -/
theorem private_transform_ok (rsa : RSA) (bl : BN_BLINDING) (d : Nat)
    (msg : List Nat) (hp : rsa.p.Prime) (hq : rsa.q.Prime)
    (hqp : rsa.q < rsa.p) (hn : rsa.n = rsa.p * rsa.q)
    (hdmp1 : rsa.dmp1 = d % (rsa.p - 1)) (hdmq1 : rsa.dmq1 = d % (rsa.q - 1))
    (hd : 0 < d) (hdmp0 : 0 < rsa.dmp1) (hdmq0 : 0 < rsa.dmq1)
    (hiq : rsa.iqmp * rsa.q ≡ 1 [MOD rsa.p]) (he : 0 < rsa.e)
    (hedp : rsa.e * d ≡ 1 [MOD rsa.p - 1])
    (hedq : rsa.e * d ≡ 1 [MOD rsa.q - 1])
    (hbl : bl.blind * bl.blindInv ≡ 1 [MOD rsa.n])
    (hmsg : beToNat msg < rsa.n) (hfit : rsa.n ≤ 256 ^ msg.length) :
    GFp_rsa_private_transform rsa msg bl =
      (none, natToBe msg.length (beToNat msg ^ d % rsa.n)) := by
  have hn0 : 0 < rsa.n := by
    rw [hn]
    exact Nat.mul_pos hp.pos hq.pos
  have hne : rsa.p ≠ rsa.q := ne_of_gt hqp
  set base := beToNat msg with hbase
  set B := GFp_BN_BLINDING_convert base bl rsa with hB
  have hBlt : B < rsa.n := Nat.mod_lt _ hn0
  have hBval : B = base * bl.blind ^ rsa.e % rsa.n := by
    rw [hB]
    unfold GFp_BN_BLINDING_convert
    rw [powMod_eq _ _ _ hn0, Nat.mul_mod_mod]
  have hr : crt_result rsa B = B ^ d % rsa.n :=
    crt_result_eq rsa d hp hq hqp hn hdmp1 hdmq1 hd hdmp0 hdmq0 hiq B
  have hcore : ∀ a : Nat, a ^ (d * rsa.e) ≡ a [MOD rsa.n] :=
    rsa_core hp hq hne hn he hd hedp hedq
  have hvrfy : powMod (crt_result rsa B) rsa.e rsa.n = B := by
    rw [powMod_eq _ _ _ hn0, hr, ← Nat.pow_mod, ← pow_mul]
    rw [show (B ^ (d * rsa.e)) % rsa.n = B % rsa.n from hcore B]
    exact Nat.mod_eq_of_lt hBlt
  have hu : GFp_BN_BLINDING_invert (crt_result rsa B) bl rsa =
      base ^ d % rsa.n := by
    unfold GFp_BN_BLINDING_invert
    rw [hr]
    have h1 : B ^ d % rsa.n * bl.blindInv ≡ B ^ d * bl.blindInv [MOD rsa.n] :=
      Nat.ModEq.mul_right _ (Nat.mod_modEq _ _)
    have h2 : B ≡ base * bl.blind ^ rsa.e [MOD rsa.n] := by
      rw [hBval]
      exact Nat.mod_modEq _ _
    have h3 : B ^ d * bl.blindInv ≡
        base ^ d * bl.blind ^ (rsa.e * d) * bl.blindInv [MOD rsa.n] := by
      refine Nat.ModEq.mul_right _ ?_
      calc B ^ d ≡ (base * bl.blind ^ rsa.e) ^ d [MOD rsa.n] := h2.pow d
        _ = base ^ d * bl.blind ^ (rsa.e * d) := by rw [mul_pow, ← pow_mul]
    have h4 : base ^ d * bl.blind ^ (rsa.e * d) * bl.blindInv ≡
        base ^ d [MOD rsa.n] := by
      have h5 : bl.blind ^ (rsa.e * d) ≡ bl.blind [MOD rsa.n] := by
        rw [mul_comm]
        exact hcore bl.blind
      calc base ^ d * bl.blind ^ (rsa.e * d) * bl.blindInv
          ≡ base ^ d * bl.blind * bl.blindInv [MOD rsa.n] :=
            Nat.ModEq.mul_right _ (Nat.ModEq.mul_left _ h5)
        _ = base ^ d * (bl.blind * bl.blindInv) := by ring
        _ ≡ base ^ d * 1 [MOD rsa.n] := Nat.ModEq.mul_left _ hbl
        _ = base ^ d := by ring
    exact (h1.trans h3).trans h4
  have hout : GFp_BN_bn2bin_padded msg.length (base ^ d % rsa.n) =
      some (natToBe msg.length (base ^ d % rsa.n)) := by
    unfold GFp_BN_bn2bin_padded
    rw [if_pos (lt_of_lt_of_le (Nat.mod_lt _ hn0) hfit)]
  simp only [GFp_rsa_private_transform]
  rw [← hbase, ← hB]
  rw [if_neg (Nat.not_le.mpr hmsg), hvrfy]
  rw [if_neg (show ¬B ≠ B from fun hcon => hcon rfl)]
  rw [hu, hout]

/-- The public transform, with correctly sized buffers, a pair accepted by
the key validator and an input below the modulus, succeeds and writes
`f ^ e mod n`, padded to the buffer length. -/
theorem public_decrypt_ok (out nb eb inb : List Nat) (mn mx : Nat)
    (hout : out.length = GFp_BN_num_bytes (beToNat nb))
    (hin : inb.length = GFp_BN_num_bytes (beToNat nb))
    (hval : GFp_rsa_check_modulus_and_exponent (beToNat nb) (beToNat eb)
      mn mx = none)
    (hf : beToNat inb < beToNat nb) :
    GFp_rsa_public_decrypt out nb eb inb mn mx =
      (none, natToBe out.length
        (beToNat inb ^ beToNat eb % beToNat nb)) := by
  have hn0 : 0 < beToNat nb := validator_none_n_pos hval
  have hresfit : beToNat inb ^ beToNat eb % beToNat nb < 256 ^ out.length := by
    rw [hout]
    exact lt_trans (Nat.mod_lt _ hn0) (lt_256_pow_num_bytes _)
  show (if out.length ≠ GFp_BN_num_bytes (beToNat nb) then _ else _) = _
  rw [if_neg (by rw [hout]; exact fun h => h rfl)]
  rw [if_neg (by rw [hin]; exact fun h => h rfl)]
  rw [hval]
  show (if beToNat nb ≤ beToNat inb then _ else _) = _
  rw [if_neg (Nat.not_le.mpr hf)]
  rw [powMod_eq _ _ _ hn0]
  show (match GFp_BN_bn2bin_padded out.length _ with
    | none => _ | some o => ((none : Option Err), o)) = _
  rw [show GFp_BN_bn2bin_padded out.length
      (beToNat inb ^ beToNat eb % beToNat nb) =
      some (natToBe out.length (beToNat inb ^ beToNat eb % beToNat nb)) by
    unfold GFp_BN_bn2bin_padded
    rw [if_pos hresfit]]

/-! ### Concrete keys used to instantiate the theorems -/

/-- A valid 35-bit test key: `p = 131101`, `q = 131071` (both prime),
`e = 65537`, `d = 495673973 = e⁻¹ mod lcm(p-1, q-1)`,
`dmp1 = d mod (p-1)`, `dmq1 = d mod (q-1)`, `iqmp = q⁻¹ mod p`. -/
def kWit : RSA :=
  { n := 17183539171, e := 65537, p := 131101, q := 131071,
    dmp1 := 115973, dmq1 := 98303, iqmp := 4370 }

/-- The trivial (identity) blinding pair. -/
def blWit : BN_BLINDING := { blind := 1, blindInv := 1 }

/-- A small but CRT-consistent key (`d = 3`): used where the validator is
not involved. -/
def kSmall : RSA :=
  { n := 15, e := 3, p := 5, q := 3, dmp1 := 3, dmq1 := 1, iqmp := 2 }

/-- A deliberately inconsistent key (`e = 2` does not match the CRT
exponents), on which the fault check must fire. -/
def kBad : RSA :=
  { n := 15, e := 2, p := 5, q := 3, dmp1 := 1, dmq1 := 1, iqmp := 2 }

/-- An unbalanced prime pair packaged as a key: `p = 11`, `q = 2`. -/
def kC8bad : RSA :=
  { n := 22, e := 3, p := 11, q := 2, dmp1 := 1, dmq1 := 1, iqmp := 1 }

theorem kWit_p_prime : Nat.Prime 131101 := by norm_num

theorem kWit_q_prime : Nat.Prime 131071 := by norm_num

/-! ### Claims -/

/-- C4: `GFp_rsa_check_modulus_and_exponent(n, e, min_bits, max_bits)`
succeeds iff `bitlen(n) ≥ min_bits`, `bitlen(n) ≤ min(max_bits, 16384)`,
`bitlen(e) ∈ [2, 33]`, `e` odd and `bitlen(n) > 33`; on failure it reports
the error of the first violated check, in the order KeySizeTooSmall,
ModulusTooLarge, BadExponent (three separate exponent checks),
KeySizeTooSmall. -/
theorem C4_validator_checks (n e mn mx : Nat) :
    (GFp_rsa_check_modulus_and_exponent n e mn mx = none ↔
      mn ≤ GFp_BN_num_bits n ∧ GFp_BN_num_bits n ≤ min mx 16384 ∧
      2 ≤ GFp_BN_num_bits e ∧ GFp_BN_num_bits e ≤ 33 ∧ Odd e ∧
      33 < GFp_BN_num_bits n) ∧
    (GFp_BN_num_bits n < mn →
      GFp_rsa_check_modulus_and_exponent n e mn mx =
        some Err.RSA_R_KEY_SIZE_TOO_SMALL) ∧
    (mn ≤ GFp_BN_num_bits n → min mx 16384 < GFp_BN_num_bits n →
      GFp_rsa_check_modulus_and_exponent n e mn mx =
        some Err.RSA_R_MODULUS_TOO_LARGE) ∧
    (mn ≤ GFp_BN_num_bits n → GFp_BN_num_bits n ≤ min mx 16384 →
      GFp_BN_num_bits e < 2 →
      GFp_rsa_check_modulus_and_exponent n e mn mx =
        some Err.RSA_R_BAD_E_VALUE) ∧
    (mn ≤ GFp_BN_num_bits n → GFp_BN_num_bits n ≤ min mx 16384 →
      33 < GFp_BN_num_bits e →
      GFp_rsa_check_modulus_and_exponent n e mn mx =
        some Err.RSA_R_BAD_E_VALUE) ∧
    (mn ≤ GFp_BN_num_bits n → GFp_BN_num_bits n ≤ min mx 16384 →
      2 ≤ GFp_BN_num_bits e → GFp_BN_num_bits e ≤ 33 → ¬Odd e →
      GFp_rsa_check_modulus_and_exponent n e mn mx =
        some Err.RSA_R_BAD_E_VALUE) ∧
    (mn ≤ GFp_BN_num_bits n → GFp_BN_num_bits n ≤ min mx 16384 →
      2 ≤ GFp_BN_num_bits e → GFp_BN_num_bits e ≤ 33 → Odd e →
      GFp_BN_num_bits n ≤ 33 →
      GFp_rsa_check_modulus_and_exponent n e mn mx =
        some Err.RSA_R_KEY_SIZE_TOO_SMALL) := by
  have heq : GFp_rsa_check_modulus_and_exponent n e mn mx =
      if GFp_BN_num_bits n < mn then some Err.RSA_R_KEY_SIZE_TOO_SMALL
      else if 16 * 1024 < GFp_BN_num_bits n ∨ mx < GFp_BN_num_bits n then
        some Err.RSA_R_MODULUS_TOO_LARGE
      else if GFp_BN_num_bits e < 2 then some Err.RSA_R_BAD_E_VALUE
      else if 33 < GFp_BN_num_bits e then some Err.RSA_R_BAD_E_VALUE
      else if e % 2 = 0 then some Err.RSA_R_BAD_E_VALUE
      else if GFp_BN_num_bits n ≤ 33 then some Err.RSA_R_KEY_SIZE_TOO_SMALL
      else none := rfl
  refine ⟨?_, ?_, ?_, ?_, ?_, ?_, ?_⟩
  · rw [validator_none_iff, Nat.odd_iff]
    omega
  · intro h1
    rw [heq, if_pos h1]
  · intro h1 h2
    rw [heq, if_neg (by omega), if_pos (by omega)]
  · intro h1 h2 h3
    rw [heq, if_neg (by omega), if_neg (by omega), if_pos h3]
  · intro h1 h2 h3
    rw [heq, if_neg (by omega), if_neg (by omega), if_neg (by omega),
      if_pos h3]
  · intro h1 h2 h3 h4 h5
    rw [Nat.odd_iff] at h5
    rw [heq, if_neg (by omega), if_neg (by omega), if_neg (by omega),
      if_neg (by omega), if_pos (by omega)]
  · intro h1 h2 h3 h4 h5 h6
    rw [Nat.odd_iff] at h5
    rw [heq, if_neg (by omega), if_neg (by omega), if_neg (by omega),
      if_neg (by omega), if_neg (by omega), if_pos h6]

theorem C4_validator_checks_witness :
    GFp_rsa_check_modulus_and_exponent 17179869184 5 1 16384 = none :=
  (C4_validator_checks 17179869184 5 1 16384).1.mpr (by decide)

/-- C9: whenever `GFp_rsa_check_modulus_and_exponent` returns success,
`n > e` holds numerically, so the `assert(GFp_BN_ucmp(n, e) > 0)` after
the bit-length shortcut can never fail. -/
theorem C9_n_gt_e (n e mn mx : Nat)
    (h : GFp_rsa_check_modulus_and_exponent n e mn mx = none) : e < n := by
  have hiff := (validator_none_iff n e mn mx).mp h
  have h1 : e < 2 ^ 33 := (num_bits_le_iff e 33).mp hiff.2.2.2.2.1
  have h2 : 2 ^ 33 ≤ n := (lt_num_bits_iff n 33).mp hiff.2.2.2.2.2.2
  omega

theorem C9_n_gt_e_witness : (5 : Nat) < 17179869184 :=
  C9_n_gt_e 17179869184 5 1 16384 (by decide)

/-- C6: an input block whose integer value is at least the modulus is
rejected by both transforms with `DataTooLargeForModulus` (in the public
transform, the value check runs after the size and key checks); the input
is never silently reduced mod `n`. -/
theorem C6_data_too_large :
    (∀ (rsa : RSA) (inout : List Nat) (bl : BN_BLINDING),
      rsa.n ≤ beToNat inout →
      GFp_rsa_private_transform rsa inout bl =
        (some Err.RSA_R_DATA_TOO_LARGE_FOR_MODULUS, inout)) ∧
    (∀ (out nb eb inb : List Nat) (mn mx : Nat),
      out.length = GFp_BN_num_bytes (beToNat nb) →
      inb.length = GFp_BN_num_bytes (beToNat nb) →
      GFp_rsa_check_modulus_and_exponent (beToNat nb) (beToNat eb) mn mx =
        none →
      beToNat nb ≤ beToNat inb →
      GFp_rsa_public_decrypt out nb eb inb mn mx =
        (some Err.RSA_R_DATA_TOO_LARGE_FOR_MODULUS, out)) := by
  constructor
  · intro rsa inout bl h
    simp only [GFp_rsa_private_transform]
    rw [if_pos h]
  · intro out nb eb inb mn mx hout hin hval hf
    simp only [GFp_rsa_public_decrypt]
    rw [if_neg (by rw [hout]; exact fun hc => hc rfl),
      if_neg (by rw [hin]; exact fun hc => hc rfl), hval, if_pos hf]

theorem C6_data_too_large_witness :
    GFp_rsa_private_transform kWit [255, 255, 255, 255, 255] blWit =
      (some Err.RSA_R_DATA_TOO_LARGE_FOR_MODULUS,
        [255, 255, 255, 255, 255]) ∧
    GFp_rsa_public_decrypt [0, 0, 0, 0, 0] [4, 0, 55, 255, 227] [1, 0, 1]
        [255, 255, 255, 255, 255] 2 16384 =
      (some Err.RSA_R_DATA_TOO_LARGE_FOR_MODULUS, [0, 0, 0, 0, 0]) :=
  ⟨C6_data_too_large.1 kWit _ blWit (by decide),
   C6_data_too_large.2 _ _ _ _ 2 16384 (by decide) (by decide) (by decide)
     (by decide)⟩

/-- C7: for buffer lengths different from the modulus byte length both
transforms fail with the `BufferSizeMismatch` reasons, distinguishing
wrong output size from wrong input size, before any modular computation
on the data. -/
theorem C7_size_contract :
    (∀ (out nb eb inb : List Nat) (mn mx : Nat),
      out.length ≠ GFp_BN_num_bytes (beToNat nb) →
      GFp_rsa_public_decrypt out nb eb inb mn mx =
        (some Err.RSA_R_OUTPUT_BUFFER_TOO_SMALL, out)) ∧
    (∀ (out nb eb inb : List Nat) (mn mx : Nat),
      out.length = GFp_BN_num_bytes (beToNat nb) →
      inb.length ≠ GFp_BN_num_bytes (beToNat nb) →
      GFp_rsa_public_decrypt out nb eb inb mn mx =
        (some Err.RSA_R_DATA_LEN_NOT_EQUAL_TO_MOD_LEN, out)) ∧
    (∀ (rsa : RSA) (inout : List Nat) (bl : BN_BLINDING),
      inout.length ≠ GFp_RSA_size rsa →
      rsa_private_transform_checked rsa inout bl =
        (some Err.RSA_R_DATA_LEN_NOT_EQUAL_TO_MOD_LEN, inout)) := by
  refine ⟨?_, ?_, ?_⟩
  · intro out nb eb inb mn mx h
    simp only [GFp_rsa_public_decrypt]
    rw [if_pos h]
  · intro out nb eb inb mn mx hout h
    simp only [GFp_rsa_public_decrypt]
    rw [if_neg (by rw [hout]; exact fun hc => hc rfl), if_pos h]
  · intro rsa inout bl h
    simp only [rsa_private_transform_checked]
    rw [if_pos h]

theorem C7_size_contract_witness :
    GFp_rsa_public_decrypt [0] [4, 0, 55, 255, 227] [1, 0, 1] [1, 2, 3]
        2 16384 =
      (some Err.RSA_R_OUTPUT_BUFFER_TOO_SMALL, [0]) ∧
    GFp_rsa_public_decrypt [0, 0, 0, 0, 0] [4, 0, 55, 255, 227] [1, 0, 1]
        [1, 2, 3] 2 16384 =
      (some Err.RSA_R_DATA_LEN_NOT_EQUAL_TO_MOD_LEN, [0, 0, 0, 0, 0]) ∧
    rsa_private_transform_checked kWit [1, 2, 3] blWit =
      (some Err.RSA_R_DATA_LEN_NOT_EQUAL_TO_MOD_LEN, [1, 2, 3]) :=
  ⟨C7_size_contract.1 _ _ _ _ 2 16384 (by decide),
   C7_size_contract.2.1 _ _ _ _ 2 16384 (by decide) (by decide),
   C7_size_contract.2.2 kWit _ blWit (by decide)⟩

/-- C3: in `GFp_rsa_private_transform`, if the recombined result raised to
the public exponent modulo `n` differs from the blinded input, the call
fails with `InternalError` and the inout buffer is left untouched, so no
value derived from the corrupted result is ever released. -/
theorem C3_fault_check (rsa : RSA) (inout : List Nat) (bl : BN_BLINDING)
    (hlt : beToNat inout < rsa.n)
    (hmismatch :
      powMod (crt_result rsa
          (GFp_BN_BLINDING_convert (beToNat inout) bl rsa)) rsa.e rsa.n ≠
        GFp_BN_BLINDING_convert (beToNat inout) bl rsa) :
    GFp_rsa_private_transform rsa inout bl =
      (some Err.ERR_R_INTERNAL_ERROR, inout) := by
  simp only [GFp_rsa_private_transform]
  rw [if_neg (Nat.not_le.mpr hlt), if_pos hmismatch]

theorem C3_fault_check_witness :
    GFp_rsa_private_transform kBad [2] blWit =
      (some Err.ERR_R_INTERNAL_ERROR, [2]) :=
  C3_fault_check kBad [2] blWit (by decide) (by decide)

/-- C2: for a private key with primes `q < p`, `n = p·q`, positive CRT
exponents `dmp1 = d mod (p-1)`, `dmq1 = d mod (q-1)` and CRT coefficient
`iqmp = q⁻¹ mod p`, the Garner recombination of `mp` and `mq` computed in
`GFp_rsa_private_transform` equals `b ^ d mod n` for every base
`b < n`. -/
theorem C2_garner_crt (rsa : RSA) (d b : Nat) (hp : rsa.p.Prime)
    (hq : rsa.q.Prime) (hqp : rsa.q < rsa.p) (hn : rsa.n = rsa.p * rsa.q)
    (hdmp1 : rsa.dmp1 = d % (rsa.p - 1)) (hdmq1 : rsa.dmq1 = d % (rsa.q - 1))
    (hd : 0 < d) (hdmp0 : 0 < rsa.dmp1) (hdmq0 : 0 < rsa.dmq1)
    (hiq : rsa.iqmp * rsa.q ≡ 1 [MOD rsa.p]) (hb : b < rsa.n) :
    crt_result rsa b = b ^ d % rsa.n :=
  crt_result_eq rsa d hp hq hqp hn hdmp1 hdmq1 hd hdmp0 hdmq0 hiq b

theorem C2_garner_crt_witness : crt_result kSmall 2 = 2 ^ 3 % kSmall.n :=
  C2_garner_crt kSmall 3 2 (by decide) (by decide) (by decide) rfl
    (by decide) (by decide) (by decide) (by decide) (by decide) (by decide)
    (by decide)

/-- C8 counterexample: the claim asserts the chain
`q < q² < n < q³` for every private key with `q < p` and `p·q = n`, but
for the prime pair `p = 11`, `q = 2` (which satisfies every hypothesis the
claim names) the modulus `n = 22` is not below `q³ = 8`. -/
theorem C8_counterexample :
    Nat.Prime kC8bad.p ∧ Nat.Prime kC8bad.q ∧ kC8bad.q < kC8bad.p ∧
      kC8bad.n = kC8bad.p * kC8bad.q ∧ ¬kC8bad.n < kC8bad.q ^ 3 := by
  decide

/-- C8 (amended): for every private key with primes `q < p`, `p·q = n` and
balanced primes in the sense `p < q²`, the chains `p < n < p²` and
`q < q² < n < q³` hold; consequently every base below `n` is below `p²`
(so the single Montgomery reduction step mod `p` is valid) and reducing
first mod `q²` and then mod `q` agrees with reducing mod `q`. -/
theorem C8_reduction_chains (rsa : RSA) (hp : rsa.p.Prime)
    (hq : rsa.q.Prime) (hqp : rsa.q < rsa.p) (hbal : rsa.p < rsa.q ^ 2)
    (hn : rsa.n = rsa.p * rsa.q) :
    (rsa.p < rsa.n ∧ rsa.n < rsa.p ^ 2) ∧
    (rsa.q < rsa.q ^ 2 ∧ rsa.q ^ 2 < rsa.n ∧ rsa.n < rsa.q ^ 3) ∧
    (∀ base : Nat, base < rsa.n →
      base < rsa.p ^ 2 ∧
        base % (rsa.q * rsa.q) % rsa.q = base % rsa.q) := by
  have hp2 : 2 ≤ rsa.p := hp.two_le
  have hq2 : 2 ≤ rsa.q := hq.two_le
  have hnp2 : rsa.n < rsa.p ^ 2 := by
    rw [hn, pow_two]
    exact Nat.mul_lt_mul_of_le_of_lt le_rfl hqp (by omega)
  refine ⟨⟨?_, hnp2⟩, ⟨?_, ?_, ?_⟩, ?_⟩
  · rw [hn]
    calc rsa.p = rsa.p * 1 := (Nat.mul_one _).symm
      _ < rsa.p * rsa.q := Nat.mul_lt_mul_of_le_of_lt le_rfl (by omega)
        (by omega)
  · rw [pow_two]
    calc rsa.q = rsa.q * 1 := (Nat.mul_one _).symm
      _ < rsa.q * rsa.q := Nat.mul_lt_mul_of_le_of_lt le_rfl (by omega)
        (by omega)
  · rw [hn, pow_two]
    exact Nat.mul_lt_mul_of_lt_of_le hqp le_rfl (by omega)
  · rw [hn, pow_succ]
    exact Nat.mul_lt_mul_of_lt_of_le hbal le_rfl (by omega)
  · intro base hbase
    exact ⟨lt_trans hbase hnp2,
      Nat.mod_mod_of_dvd base (Dvd.intro_left rsa.q rfl)⟩

theorem C8_reduction_chains_witness :
    kWit.p < kWit.n ∧ kWit.n < kWit.q ^ 3 ∧
      12345678901 % (kWit.q * kWit.q) % kWit.q = 12345678901 % kWit.q := by
  have h := C8_reduction_chains kWit kWit_p_prime kWit_q_prime (by decide)
    (by decide) rfl
  exact ⟨h.1.1, h.2.1.2.2, (h.2.2 12345678901 (by decide)).2⟩

/-- C5: whenever `GFp_rsa_public_decrypt` succeeds, the input value `f`
was strictly below the modulus and the output buffer holds exactly the
big-endian encoding of `f ^ e mod n`, left-zero-padded to the modulus
byte length. -/
theorem C5_public_output (out nb eb inb : List Nat) (mn mx : Nat)
    (res : List Nat)
    (h : GFp_rsa_public_decrypt out nb eb inb mn mx = (none, res)) :
    beToNat inb < beToNat nb ∧
    res = natToBe (GFp_BN_num_bytes (beToNat nb))
      (beToNat inb ^ beToNat eb % beToNat nb) := by
  simp only [GFp_rsa_public_decrypt] at h
  by_cases h1 : out.length ≠ GFp_BN_num_bytes (beToNat nb)
  · rw [if_pos h1] at h
    simp at h
  rw [if_neg h1] at h
  by_cases h2 : inb.length ≠ GFp_BN_num_bytes (beToNat nb)
  · rw [if_pos h2] at h
    simp at h
  rw [if_neg h2] at h
  rcases hval : GFp_rsa_check_modulus_and_exponent (beToNat nb)
      (beToNat eb) mn mx with _ | err
  swap
  · rw [hval] at h
    simp at h
  rw [hval] at h
  by_cases h3 : beToNat nb ≤ beToNat inb
  · rw [if_pos h3] at h
    simp at h
  rw [if_neg h3] at h
  have hf : beToNat inb < beToNat nb := Nat.not_le.mp h3
  have hok := public_decrypt_ok out nb eb inb mn mx (not_ne_iff.mp h1)
    (not_ne_iff.mp h2) hval hf
  simp only [GFp_rsa_public_decrypt] at hok
  rw [if_neg h1, if_neg h2, hval, if_neg h3] at hok
  rw [hok] at h
  refine ⟨hf, ?_⟩
  have hres := (Prod.mk.injEq _ _ _ _).mp h
  rw [← hres.2, not_ne_iff.mp h1]

theorem C5_public_output_witness :
    beToNat [0, 61, 0, 127, 202] < beToNat [4, 0, 55, 255, 227] ∧
    [0, 0, 188, 97, 78] =
      natToBe (GFp_BN_num_bytes (beToNat [4, 0, 55, 255, 227]))
        (beToNat [0, 61, 0, 127, 202] ^ beToNat [1, 0, 1] %
          beToNat [4, 0, 55, 255, 227]) :=
  C5_public_output [0, 0, 0, 0, 0] [4, 0, 55, 255, 227] [1, 0, 1]
    [0, 61, 0, 127, 202] 2 16384 [0, 0, 188, 97, 78] (by decide)

/-- C10: on every failure path of both transforms the caller's buffer is
returned byte-for-byte unmodified, and on success the buffer contents are
exactly an output of the final `GFp_BN_bn2bin_padded` call. -/
theorem C10_failure_frame :
    (∀ (rsa : RSA) (inout : List Nat) (bl : BN_BLINDING),
      ((GFp_rsa_private_transform rsa inout bl).1.isSome = true →
        (GFp_rsa_private_transform rsa inout bl).2 = inout) ∧
      ((GFp_rsa_private_transform rsa inout bl).1 = none →
        GFp_BN_bn2bin_padded inout.length
          (GFp_BN_BLINDING_invert
            (crt_result rsa
              (GFp_BN_BLINDING_convert (beToNat inout) bl rsa)) bl rsa) =
          some (GFp_rsa_private_transform rsa inout bl).2)) ∧
    (∀ (out nb eb inb : List Nat) (mn mx : Nat),
      ((GFp_rsa_public_decrypt out nb eb inb mn mx).1.isSome = true →
        (GFp_rsa_public_decrypt out nb eb inb mn mx).2 = out) ∧
      ((GFp_rsa_public_decrypt out nb eb inb mn mx).1 = none →
        GFp_BN_bn2bin_padded out.length
          (powMod (beToNat inb) (beToNat eb) (beToNat nb)) =
          some (GFp_rsa_public_decrypt out nb eb inb mn mx).2)) := by
  constructor
  · intro rsa inout bl
    simp only [GFp_rsa_private_transform]
    by_cases h1 : rsa.n ≤ beToNat inout
    · rw [if_pos h1]
      exact ⟨fun _ => rfl, fun hc => by simp at hc⟩
    rw [if_neg h1]
    by_cases h2 : powMod (crt_result rsa
        (GFp_BN_BLINDING_convert (beToNat inout) bl rsa)) rsa.e rsa.n ≠
        GFp_BN_BLINDING_convert (beToNat inout) bl rsa
    · rw [if_pos h2]
      exact ⟨fun _ => rfl, fun hc => by simp at hc⟩
    rw [if_neg h2]
    rcases hbin : GFp_BN_bn2bin_padded inout.length
        (GFp_BN_BLINDING_invert
          (crt_result rsa
            (GFp_BN_BLINDING_convert (beToNat inout) bl rsa)) bl rsa)
      with _ | o
    · exact ⟨fun _ => rfl, fun hc => by simp at hc⟩
    · exact ⟨fun hc => by simp at hc, fun _ => rfl⟩
  · intro out nb eb inb mn mx
    simp only [GFp_rsa_public_decrypt]
    by_cases h1 : out.length ≠ GFp_BN_num_bytes (beToNat nb)
    · rw [if_pos h1]
      exact ⟨fun _ => rfl, fun hc => by simp at hc⟩
    rw [if_neg h1]
    by_cases h2 : inb.length ≠ GFp_BN_num_bytes (beToNat nb)
    · rw [if_pos h2]
      exact ⟨fun _ => rfl, fun hc => by simp at hc⟩
    rw [if_neg h2]
    rcases hval : GFp_rsa_check_modulus_and_exponent (beToNat nb)
        (beToNat eb) mn mx with _ | err
    · by_cases h3 : beToNat nb ≤ beToNat inb
      · rw [if_pos h3]
        exact ⟨fun _ => rfl, fun hc => by simp at hc⟩
      rw [if_neg h3]
      rcases hbin : GFp_BN_bn2bin_padded out.length
          (powMod (beToNat inb) (beToNat eb) (beToNat nb)) with _ | o
      · exact ⟨fun _ => rfl, fun hc => by simp at hc⟩
      · exact ⟨fun hc => by simp at hc, fun _ => rfl⟩
    · exact ⟨fun _ => rfl, fun hc => by simp at hc⟩

theorem C10_failure_frame_witness :
    (GFp_rsa_private_transform kBad [2] blWit).2 = [2] ∧
    (GFp_rsa_public_decrypt [0] [4, 0, 55, 255, 227] [1, 0, 1] [1, 2, 3]
      2 16384).2 = [0] :=
  ⟨(C10_failure_frame.1 kBad [2] blWit).1 (by decide),
   (C10_failure_frame.2 [0] [4, 0, 55, 255, 227] [1, 0, 1] [1, 2, 3]
     2 16384).1 (by decide)⟩

/-- C1: for a validly constructed key (primes `q < p`, `n = p·q`,
consistent `d`, `dmp1`, `dmq1`, `iqmp`), a consistent blinding pair, a
pair `(n, e)` accepted by the validator and a message `m < n` encoded into
a modulus-byte-length buffer, running `GFp_rsa_private_transform` and then
`GFp_rsa_public_decrypt` with the same `n` and `e` on its output
reproduces the original message buffer exactly. -/
theorem C1_round_trip (rsa : RSA) (bl : BN_BLINDING) (d : Nat)
    (msg out0 nb eb : List Nat) (mn mx : Nat)
    (hnb : beToNat nb = rsa.n) (heb : beToNat eb = rsa.e)
    (hp : rsa.p.Prime) (hq : rsa.q.Prime) (hqp : rsa.q < rsa.p)
    (hn : rsa.n = rsa.p * rsa.q)
    (hdmp1 : rsa.dmp1 = d % (rsa.p - 1)) (hdmq1 : rsa.dmq1 = d % (rsa.q - 1))
    (hd : 0 < d) (hdmp0 : 0 < rsa.dmp1) (hdmq0 : 0 < rsa.dmq1)
    (hiq : rsa.iqmp * rsa.q ≡ 1 [MOD rsa.p])
    (hedp : rsa.e * d ≡ 1 [MOD rsa.p - 1])
    (hedq : rsa.e * d ≡ 1 [MOD rsa.q - 1])
    (hbl : bl.blind * bl.blindInv ≡ 1 [MOD rsa.n])
    (hval : GFp_rsa_check_modulus_and_exponent rsa.n rsa.e mn mx = none)
    (hmsglen : msg.length = GFp_RSA_size rsa)
    (hmsgbytes : ∀ b ∈ msg, b < 256)
    (hmsg : beToNat msg < rsa.n)
    (hout0 : out0.length = GFp_RSA_size rsa) :
    (GFp_rsa_private_transform rsa msg bl).1 = none ∧
    GFp_rsa_public_decrypt out0 nb eb
      (GFp_rsa_private_transform rsa msg bl).2 mn mx = (none, msg) := by
  have he : 0 < rsa.e := validator_none_e_pos hval
  have hn0 : 0 < rsa.n := validator_none_n_pos hval
  have hne : rsa.p ≠ rsa.q := ne_of_gt hqp
  have hfit : rsa.n ≤ 256 ^ msg.length := by
    rw [hmsglen]
    exact le_of_lt (lt_256_pow_num_bytes rsa.n)
  have hpriv := private_transform_ok rsa bl d msg hp hq hqp hn hdmp1 hdmq1
    hd hdmp0 hdmq0 hiq he hedp hedq hbl hmsg hfit
  rw [hpriv]
  refine ⟨rfl, ?_⟩
  have hsv_lt : beToNat msg ^ d % rsa.n < rsa.n := Nat.mod_lt _ hn0
  have hsv_fit : beToNat msg ^ d % rsa.n < 256 ^ msg.length :=
    lt_of_lt_of_le hsv_lt hfit
  have hsig_len :
      (natToBe msg.length (beToNat msg ^ d % rsa.n)).length = msg.length :=
    natToBe_length _ _
  have hsig_val :
      beToNat (natToBe msg.length (beToNat msg ^ d % rsa.n)) =
        beToNat msg ^ d % rsa.n :=
    beToNat_natToBe _ _ hsv_fit
  have hpub := public_decrypt_ok out0 nb eb
    (natToBe msg.length (beToNat msg ^ d % rsa.n)) mn mx
    (by rw [hnb]; exact hout0)
    (by rw [hnb, hsig_len]; exact hmsglen)
    (by rw [hnb, heb]; exact hval)
    (by rw [hnb, hsig_val]; exact hsv_lt)
  rw [hpub]
  have hcore : ∀ a : Nat, a ^ (d * rsa.e) ≡ a [MOD rsa.n] :=
    rsa_core hp hq hne hn he hd hedp hedq
  have hexp : beToNat (natToBe msg.length (beToNat msg ^ d % rsa.n)) ^
      beToNat eb % beToNat nb = beToNat msg := by
    rw [hsig_val, heb, hnb, ← Nat.pow_mod, ← pow_mul]
    rw [show beToNat msg ^ (d * rsa.e) % rsa.n = beToNat msg % rsa.n from
      hcore (beToNat msg)]
    exact Nat.mod_eq_of_lt hmsg
  rw [hexp, hout0]
  rw [show GFp_RSA_size rsa = msg.length from hmsglen.symm]
  rw [natToBe_beToNat msg hmsgbytes]

theorem C1_round_trip_witness :
    (GFp_rsa_private_transform kWit [0, 0, 188, 97, 78] blWit).1 = none ∧
    GFp_rsa_public_decrypt [0, 0, 0, 0, 0] [4, 0, 55, 255, 227] [1, 0, 1]
      (GFp_rsa_private_transform kWit [0, 0, 188, 97, 78] blWit).2
      2 16384 = (none, [0, 0, 188, 97, 78]) :=
  C1_round_trip kWit blWit 495673973 [0, 0, 188, 97, 78] [0, 0, 0, 0, 0]
    [4, 0, 55, 255, 227] [1, 0, 1] 2 16384 (by decide) (by decide)
    kWit_p_prime kWit_q_prime (by decide) (by decide) (by decide)
    (by decide) (by decide) (by decide) (by decide) (by decide) (by decide)
    (by decide) (by decide) (by decide) (by decide) (by decide)
    (by decide) (by decide)

end RingRsa
